import Mathlib

/-!
Verification of the tag-to-type classification engine of the repository
(`generator/osm2type.cpp`, plus the click-classification helper of the
assessment tool).  The C++ code is shallowly embedded: tags are pairs of
strings, the mutable tag store is threaded explicitly, and the two
`do/while` loops of `MatchTypes` are realised with an explicit iteration
budget whose sufficiency is proved.
-/

/-- A tag of an input element: a key/value pair of strings
(`OsmElement::Tag`).  A consumed tag has both fields empty. -/
abbrev Tag := String × String

/-- The list of negative sentinel values of `IgnoreTag`
(`osm2type.cpp` line 37). -/
def negativeValues : List String := ["no", "false", "-1"]

/-- The table of specially processed keys of `IgnoreTag`
(`osm2type.cpp` lines 38-45): `true` means the key is ignored,
`false` means it is processed in any case. -/
def processedKeys : List (String × Bool) :=
  [("description", true), ("cycleway", true), ("proposed", true),
   ("construction", true), ("layer", false), ("oneway", false)]

/-- Linear lookup in the `processedKeys` table, mirroring the
range-`for` loop of `IgnoreTag` (lines 52-54). -/
def lookupKey (k : String) : List (String × Bool) → Option Bool
  | [] => none
  | p :: rest => if k = p.1 then some p.2 else lookupKey k rest

/-- Linear scan of a string list, mirroring the range-`for` loop over
`negativeValues` (lines 57-59). -/
def containsStr (v : String) : List String → Bool
  | [] => false
  | s :: rest => if v = s then true else containsStr v rest

/-- `IgnoreTag` (`osm2type.cpp` lines 35-62): a tag is invisible to the
taxonomy walker when its key is empty, its key is one of the ignored
synonym keys, or its value is a negative sentinel and the key is not
`layer`/`oneway`. -/
def IgnoreTag (k v : String) : Bool :=
  if k = "" then true
  else
    match lookupKey k processedKeys with
    | some b => b
    | none => containsStr v negativeValues

/-- Modelled from the spec: `strings::is_number` (external string
utility, not under `src/`) recognises a bare integer — an optional
leading minus sign followed by one or more decimal digits. -/
def isBareNumber (s : String) : Bool :=
  match s.data with
  | [] => false
  | c :: rest =>
      if c = Char.ofNat 45 then rest ≠ [] && rest.all Char.isDigit
      else (c :: rest).all Char.isDigit

/-- `NeedMatchValue` (`osm2type.cpp` lines 25-33): numeric values take
part in taxonomy matching only for the keys `admin_level` and
`capital`. -/
def NeedMatchValue (k v : String) : Bool :=
  let isNumber := isBareNumber v
  (!isNumber || (isNumber && (k == "admin_level" || k == "capital")))

/-- Character-list prefix test (used to embed `string::find`). -/
def isPrefixChars : List Char → List Char → Bool
  | [], _ => true
  | _ :: _, [] => false
  | a :: as, b :: bs => a == b && isPrefixChars as bs

/-- Character-list substring test (used to embed `string::find`). -/
def containsSub (pat : List Char) : List Char → Bool
  | [] => pat.isEmpty
  | c :: cs => isPrefixChars pat (c :: cs) || containsSub pat cs

/-- `string::npos != k.find("name")` of `ForEachTagEx`
(`osm2type.cpp` line 89): the key contains `name` as a substring. -/
def containsName (k : String) : Bool := containsSub ("name".data) k.data

/-- C6: a tag presented to the taxonomy walker is skipped exactly when
its key is empty, its key is one of `description`, `cycleway`,
`proposed`, `construction`, or its value is one of `no`, `false`, `-1`
while its key is neither `layer` nor `oneway`; `layer` and `oneway`
tags are presented regardless of value polarity. -/
theorem ignore_tag_characterization (k v : String) :
    IgnoreTag k v = true ↔
      k = "" ∨ k = "description" ∨ k = "cycleway" ∨ k = "proposed" ∨
      k = "construction" ∨
      ((v = "no" ∨ v = "false" ∨ v = "-1") ∧ k ≠ "layer" ∧ k ≠ "oneway") := by
  by_cases h0 : k = ""
  · simp [IgnoreTag, h0]
  · by_cases h1 : k = "description"
    · simp [IgnoreTag, lookupKey, processedKeys, h0, h1]
    · by_cases h2 : k = "cycleway"
      · simp [IgnoreTag, lookupKey, processedKeys, h0, h1, h2]
      · by_cases h3 : k = "proposed"
        · simp [IgnoreTag, lookupKey, processedKeys, h0, h1, h2, h3]
        · by_cases h4 : k = "construction"
          · simp [IgnoreTag, lookupKey, processedKeys, h0, h1, h2, h3, h4]
          · by_cases h5 : k = "layer"
            · simp [IgnoreTag, lookupKey, processedKeys, h0, h1, h2, h3, h4, h5]
            · by_cases h6 : k = "oneway"
              · simp [IgnoreTag, lookupKey, processedKeys,
                  h0, h1, h2, h3, h4, h5, h6]
              · by_cases hv1 : v = "no"
                · simp [IgnoreTag, lookupKey, processedKeys, containsStr,
                    negativeValues, h0, h1, h2, h3, h4, h5, h6, hv1]
                · by_cases hv2 : v = "false"
                  · simp [IgnoreTag, lookupKey, processedKeys, containsStr,
                      negativeValues, h0, h1, h2, h3, h4, h5, h6, hv1, hv2]
                  · by_cases hv3 : v = "-1"
                    · simp [IgnoreTag, lookupKey, processedKeys, containsStr,
                        negativeValues, h0, h1, h2, h3, h4, h5, h6, hv1, hv2, hv3]
                    · simp [IgnoreTag, lookupKey, processedKeys, containsStr,
                        negativeValues, h0, h1, h2, h3, h4, h5, h6, hv1, hv2, hv3]

/-- Tokenizer accumulator: splits a character list at delimiters,
dropping empty tokens, as `strings::SimpleTokenizer` does. -/
def tokenizeAux (isDelim : Char → Bool) : List Char → List Char → List (List Char)
  | [], acc => if acc.isEmpty then [] else [acc.reverse]
  | c :: cs, acc =>
      if isDelim c then
        if acc.isEmpty then tokenizeAux isDelim cs []
        else acc.reverse :: tokenizeAux isDelim cs []
      else tokenizeAux isDelim cs (c :: acc)

/-- Delimiters of the name-key tokenizer: the characters of the string
literal passed to `SimpleTokenizer(k, "\t :")` — tab, space, colon. -/
def nameDelim (c : Char) : Bool :=
  c.toNat = 9 || c.toNat = 32 || c.toNat = 58

/-- The tokens of a name key, for `GetLangByKey`
(`osm2type.cpp` line 111). -/
def nameTokens (k : String) : List String :=
  (tokenizeAux nameDelim k.data []).map String.mk

/-- The state accumulated by class `ExtractNames`: the set of language
keys already stored for this element (`m_savedNames`) and the name
table added to the output record (`FeatureParams::AddName` calls, in
order). -/
structure NamesState where
  saved : List String
  names : List (String × String)
deriving DecidableEq

/-- `ExtractNames::GetLangByKey` (`osm2type.cpp` lines 109-131),
fused with its `m_savedNames.insert` duplicate check: returns the
language key when the tag key denotes a name whose language was not
stored before, `none` otherwise (non-name key, no token, or duplicate
language). -/
def GetLangByKey (saved : List String) (k : String) : Option String :=
  match nameTokens k with
  | [] => none
  | t :: rest =>
      if t = "int_name" then
        if containsStr "int_name" saved then none else some "int_name"
      else if t = "name" then
        let lang := match rest with
          | [] => "default"
          | l :: _ => l
        let lang := if lang = "ar1" then "ar" else lang
        if containsStr lang saved then none else some lang
      else none

/-- `ExtractNames::operator()` (`osm2type.cpp` lines 133-148) on one
tag: when the value is non-empty and the key denotes a name in a not
yet stored language, the normalized value is stored under that
language and the tag is consumed (key and value cleared); otherwise
the state and the tag are left unchanged.  `norm` abstracts the
external Qt NFKC normalization. -/
def extractNamesTag (norm : String → String) (st : NamesState) (k v : String) :
    NamesState × String × String :=
  if v = "" then (st, k, v)
  else
    match GetLangByKey st.saved k with
    | none => (st, k, v)
    | some lang =>
        ({ saved := lang :: st.saved, names := st.names ++ [(lang, norm v)] },
         "", "")

/-- The `ForEachTag<bool>(p, ExtractNames(params))` pass
(`osm2type.cpp` line 337): every non-ignored tag is offered to
`ExtractNames` in order (its result is always `false`, so there is no
early exit), ignored tags are left untouched; returns the final state
and the updated tag store. -/
def runExtractNames (norm : String → String) :
    List Tag → NamesState → NamesState × List Tag
  | [], st => (st, [])
  | e :: rest, st =>
      if IgnoreTag e.1 e.2 then
        let r := runExtractNames norm rest st
        (r.1, e :: r.2)
      else
        let s1 := extractNamesTag norm st e.1 e.2
        let r := runExtractNames norm rest s1.1
        (r.1, (s1.2.1, s1.2.2) :: r.2)

/-- The element state used in the C2 duplicate scenario: the language
`default` was already stored (with value `Foo`). -/
def dupState : NamesState := { saved := ["default"], names := [("default", "Foo")] }

/-- C2 counterexample: on the element `[name=Foo, name=Bar]` the second
`name` tag has a non-empty value and a name-denoting key, yet after the
name-extraction pass it is NOT consumed: its key and value survive
unchanged (only the stored first tag is cleared), refuting "after
processing the tag is always consumed". -/
theorem extract_names_duplicate_not_consumed_cex :
    (runExtractNames (fun s => s) [("name", "Foo"), ("name", "Bar")]
        { saved := [], names := [] }).2
      = [("", ""), ("name", "Bar")] ∧
    (runExtractNames (fun s => s) [("name", "Foo"), ("name", "Bar")]
        { saved := [], names := [] }).1.names
      = [("default", "Foo")] ∧
    ("name", "Bar") ≠ (("", "") : Tag) := by
  refine ⟨?_, ?_, by decide⟩ <;> rfl

/-- C2 amended: a name tag is consumed exactly together with being
stored.  Every tag is either left fully unchanged (state and tag), or
consumed (key and value cleared) with its normalized value stored
under a freshly recorded language; in particular a name tag whose
language duplicates one already stored (`GetLangByKey` yields `none`)
is left unconsumed, its value discarded and the first-stored value
retained. -/
theorem extract_names_consume_iff_store (norm : String → String)
    (st : NamesState) (k v : String) :
    ((extractNamesTag norm st k v = (st, k, v)) ∨
      (∃ lang, GetLangByKey st.saved k = some lang ∧
        extractNamesTag norm st k v
          = ({ saved := lang :: st.saved, names := st.names ++ [(lang, norm v)] },
             "", ""))) ∧
    (v ≠ "" → GetLangByKey st.saved k = none →
      extractNamesTag norm st k v = (st, k, v)) := by
  constructor
  · by_cases hv : v = ""
    · exact Or.inl (by simp [extractNamesTag, hv])
    · cases hlang : GetLangByKey st.saved k with
      | none => exact Or.inl (by simp [extractNamesTag, hv, hlang])
      | some lang =>
          exact Or.inr ⟨lang, rfl, by simp [extractNamesTag, hv, hlang]⟩
  · intro hv hlang
    simp [extractNamesTag, hv, hlang]

/-- C2 witness: the amended theorem applied to the concrete duplicate
scenario — the second `name` tag of the C2 counterexample element is
left unchanged. -/
theorem extract_names_consume_iff_store_witness :
    extractNamesTag (fun s => s) dupState "name" "Bar" = (dupState, "name", "Bar") :=
  (extract_names_consume_iff_store (fun s => s) dupState "name" "Bar").2
    (by decide) (by rfl)

/-- A rule of `TagProcessor::ApplyRules` (`osm2type.cpp` lines
153-162): a key pattern, a value pattern, and an action; the action
receives the engine state and mutable references to the tag's key and
value, returning their new contents. -/
structure Rule (σ : Type) where
  key : String
  value : String
  action : σ → String → String → σ × String × String

/-- `TagProcessor::IsNegative` (`osm2type.cpp` lines 164-170). -/
def IsNegative (v : String) : Bool :=
  containsStr v ["no", "none", "false"]

/-- The value-pattern test of `ApplyRules` (lines 186-192): dispatch on
the FIRST character of the rule's value pattern — `*` takes any value,
`!` takes negative values, `~` takes non-negative values, anything
else contributes `false` (the literal-equality disjunct is separate). -/
def patternTake (rv v : String) : Bool :=
  match rv.data with
  | [] => false
  | c :: _ =>
      if c = '*' then true
      else if c = '!' then IsNegative v
      else if c = '~' then !(IsNegative v)
      else false

/-- The firing condition of one rule on one tag (lines 184-195):
the keys must be equal (`strcmp`), and then the action is called when
`take || e.value == rule.value`. -/
def ruleFires (rk rv k v : String) : Bool :=
  if k ≠ rk then false
  else (patternTake rv v || v == rv)

/-- The inner rule loop of `ApplyRules` (lines 182-196) on a single
tag: every rule of the table is evaluated in order against the current
key/value (which a firing action may rewrite in place); returns the
final state, the final tag contents, and — as ghost instrumentation —
the (key, value) patterns of the rules that fired, in order. -/
def applyRulesToTag {σ : Type} :
    List (Rule σ) → σ → String → String →
      σ × String × String × List (String × String)
  | [], s, k, v => (s, k, v, [])
  | r :: rest, s, k, v =>
      if ruleFires r.key r.value k v then
        let a := r.action s k v
        let q := applyRulesToTag rest a.1 a.2.1 a.2.2
        (q.1, q.2.1, q.2.2.1, (r.key, r.value) :: q.2.2.2)
      else applyRulesToTag rest s k v

/-- `TagProcessor::ApplyRules` (lines 178-198): the outer loop over
the element's tags, applying the whole rule table to each tag in
order; returns the final state and the updated tag store. -/
def ApplyRules {σ : Type} (rules : List (Rule σ)) :
    List Tag → σ → σ × List Tag
  | [], s => (s, [])
  | e :: rest, s =>
      let q := applyRulesToTag rules s e.1 e.2
      let r := ApplyRules rules rest q.1
      (r.1, (q.2.1, q.2.2.1) :: r.2)

/-- `IsNegative` membership unfolded. -/
lemma isNegative_eq (v : String) :
    IsNegative v = (v == "no" || v == "none" || v == "false") := by
  by_cases h1 : v = "no"
  · simp [IsNegative, containsStr, h1]
  · by_cases h2 : v = "none"
    · simp [IsNegative, containsStr, h1, h2]
    · by_cases h3 : v = "false"
      · simp [IsNegative, containsStr, h1, h2, h3]
      · simp [IsNegative, containsStr, h1, h2, h3]

/-- A rule of the source tables with a pure action, used as a concrete
instantiation (the `oneway=yes` rule of the highway table, whose C++
action touches only the output record, not the tag). -/
def onewayRulePure : Rule Unit :=
  { key := "oneway", value := "yes", action := fun s k v => (s, k, v) }

/-- The `foot`/`"!"` rule of the highway table (line 419), with its
tag-preserving action abstracted to the identity. -/
def footBangRule : Rule Unit :=
  { key := "foot", value := "!", action := fun s k v => (s, k, v) }

/-- C5 counterexample: the rule `{foot, "!"}` FIRES on the tag
`foot="!"` although `"!"` is not in the negative set
`{no, none, false}` — the final `take || e.value == rule.value`
disjunct makes literal equality with the pattern string fire as well,
refuting the claim that `"!"` matches exactly the negative set. -/
theorem rule_bang_literal_equality_cex :
    (applyRulesToTag [footBangRule] () "foot" "!").2.2.2 = [("foot", "!")] ∧
    IsNegative "!" = false ∧
    ruleFires "foot" "!" "foot" "!" = true := by
  exact ⟨rfl, rfl, rfl⟩

/-- C5 amended: for a rule table whose actions leave the tag
unchanged, a rule's action is invoked iff the tag's key equals the
rule's key pattern exactly AND (the first character of the value
pattern takes the value — `*` any, `!` negative set, `~` complement —
OR the value equals the pattern string literally); every rule of the
table is evaluated for every tag, with no early termination, so one
tag may fire several rules. -/
theorem apply_rules_firing_condition {σ : Type} (rules : List (Rule σ))
    (s : σ) (k v : String)
    (hpure : ∀ r ∈ rules, ∀ s2 k2 v2, r.action s2 k2 v2 = (s2, k2, v2)) :
    (applyRulesToTag rules s k v).2.2.2
      = (rules.filter (fun r => ruleFires r.key r.value k v)).map
          (fun r => (r.key, r.value)) ∧
    (∀ rk rv : String,
      ruleFires rk rv k v = (k == rk && (patternTake rv v || v == rv))) ∧
    patternTake "*" v = true ∧
    patternTake "!" v = IsNegative v ∧
    patternTake "~" v = !(IsNegative v) ∧
    IsNegative v = (v == "no" || v == "none" || v == "false") := by
  refine ⟨?_, ?_, rfl, rfl, rfl, isNegative_eq v⟩
  · induction rules generalizing s with
    | nil => rfl
    | cons r rest ih =>
        have hr := hpure r (List.mem_cons_self r rest)
        have hrest : ∀ r2 ∈ rest, ∀ s2 k2 v2, r2.action s2 k2 v2 = (s2, k2, v2) :=
          fun r2 h2 => hpure r2 (List.mem_cons_of_mem r h2)
        have ih2 : ∀ s2 : σ, (applyRulesToTag rest s2 k v).2.2.2
            = (rest.filter (fun r2 => ruleFires r2.key r2.value k v)).map
                (fun r2 => (r2.key, r2.value)) := fun s2 => ih s2 hrest
        by_cases hf : ruleFires r.key r.value k v
        · simp [applyRulesToTag, hf, hr, List.filter_cons, ih2]
        · simp [applyRulesToTag, hf, List.filter_cons, ih2]
  · intro rk rv
    by_cases hk : k = rk
    · simp [ruleFires, hk]
    · simp [ruleFires, hk]

/-- C5 witness: the amended firing characterization applied to the
concrete table `[{oneway, yes}]` and tag `oneway=yes` — exactly that
rule fires. -/
theorem apply_rules_firing_condition_witness :
    (applyRulesToTag [onewayRulePure] () "oneway" "yes").2.2.2
      = [("oneway", "yes")] := by
  have h := apply_rules_firing_condition [onewayRulePure] () "oneway" "yes"
    (by
      intro r hr s2 k2 v2
      have hre : r = onewayRulePure := by simpa using hr
      subst hre
      rfl)
  exact h.1.trans (by rfl)

/-- `ForEachTag` (`osm2type.cpp` lines 64-78), with the callback's
per-call state threaded explicitly: non-ignored tags are offered to
`toDo` in order; a truthy result (`some`) stops the scan and is
returned, otherwise the scan continues and ends with the default
(`none`). -/
def ForEachTag {σ α : Type} (toDo : σ → String → String → σ × Option α) :
    List Tag → σ → σ × Option α
  | [], s => (s, none)
  | e :: rest, s =>
      if IgnoreTag e.1 e.2 then ForEachTag toDo rest s
      else
        let q := toDo s e.1 e.2
        match q.2 with
        | some r => (q.1, some r)
        | none => ForEachTag toDo rest q.1

/-- The same scan without the `IgnoreTag` filter (the loop body of
`ForEachTag` on an already-filtered tag list). -/
def scanTags {σ α : Type} (toDo : σ → String → String → σ × Option α) :
    List Tag → σ → σ × Option α
  | [], s => (s, none)
  | e :: rest, s =>
      let q := toDo s e.1 e.2
      match q.2 with
      | some r => (q.1, some r)
      | none => scanTags toDo rest q.1

/-- The tags of an element that are visible to any `ForEachTag` pass:
those not excluded by `IgnoreTag`. -/
def visitedTags (tags : List Tag) : List Tag :=
  tags.filter (fun e => !(IgnoreTag e.1 e.2))

/-- `ForEachTag` reads exactly the non-ignored tags. -/
lemma forEachTag_eq_scan_visited {σ α : Type}
    (toDo : σ → String → String → σ × Option α) :
    ∀ (tags : List Tag) (s : σ),
      ForEachTag toDo tags s = scanTags toDo (visitedTags tags) s := by
  intro tags
  induction tags with
  | nil => intro s; rfl
  | cons e rest ih =>
      intro s
      by_cases hig : IgnoreTag e.1 e.2
      · simp [ForEachTag, visitedTags, List.filter_cons, hig, ih s]
      · simp only [ForEachTag, visitedTags, List.filter_cons, hig]
        simp only [Bool.not_false, if_pos]
        show (match (toDo s e.1 e.2).2 with
          | some r => ((toDo s e.1 e.2).1, some r)
          | none => ForEachTag toDo rest (toDo s e.1 e.2).1)
          = scanTags toDo (e :: rest.filter (fun e2 => !(IgnoreTag e2.1 e2.2))) s
      
        cases hq : (toDo s e.1 e.2).2 with
        | some r => simp [scanTags, hq]
        | none => simp [scanTags, hq, ih, visitedTags]

/-- C4: consumption is permanent — a consumed tag (empty key and
value) is invisible to every later pass: `IgnoreTag` always excludes
an empty key, `ForEachTag` (and hence `ForEachTagEx`, which is built
on it) reads exactly the non-ignored tags, a consumed tag is never
among them, and `ApplyRules` fires no rule on it for any table whose
key patterns are non-empty (as all tables of the source are). -/
theorem consumed_tags_invisible :
    (∀ v : String, IgnoreTag "" v = true) ∧
    (∀ {σ α : Type} (toDo : σ → String → String → σ × Option α)
        (tags : List Tag) (s : σ),
      ForEachTag toDo tags s = scanTags toDo (visitedTags tags) s) ∧
    (∀ (tags : List Tag) (v : String), (("", v) : Tag) ∉ visitedTags tags) ∧
    (∀ {σ : Type} (rules : List (Rule σ)) (s : σ) (v : String),
      (∀ r ∈ rules, r.key ≠ "") →
      applyRulesToTag rules s "" v = (s, "", v, [])) := by
  refine ⟨fun v => by simp [IgnoreTag], ?_, ?_, ?_⟩
  · intro σ α toDo tags s
    exact forEachTag_eq_scan_visited toDo tags s
  · intro tags v h
    rw [visitedTags, List.mem_filter] at h
    have h2 := h.2
    simp [IgnoreTag] at h2
  · intro σ rules s v hkeys
    induction rules with
    | nil => rfl
    | cons r rest ih =>
        have hk : r.key ≠ "" := hkeys r (List.mem_cons_self r rest)
        have hfire : ruleFires r.key r.value "" v = false := by
          simp [ruleFires]
          intro h
          exact absurd h.symm hk
        have ih2 := ih (fun r2 h2 => hkeys r2 (List.mem_cons_of_mem r h2))
        simp [applyRulesToTag, hfire, ih2]

/-- C4 witness: a consumed tag against the concrete one-rule table
`[{oneway, yes}]` — nothing fires and the tag stays empty. -/
theorem consumed_tags_invisible_witness :
    applyRulesToTag [onewayRulePure] () "" "yes" = ((), "", "yes", []) := by
  have h := consumed_tags_invisible
  exact h.2.2.2 [onewayRulePure] () "yes"
    (by
      intro r hr
      have hre : r = onewayRulePure := by simpa using hr
      subst hre
      decide)

/-- Digit accumulation of C `atoi`: consume decimal digits, stop at the
first non-digit. -/
def atoiDigits : List Char → Nat → Nat
  | [], acc => acc
  | c :: cs, acc =>
      if c.isDigit then atoiDigits cs (acc * 10 + (c.toNat - 48)) else acc

/-- C whitespace (the `isspace` set skipped by `atoi`). -/
def isSpaceChar (c : Char) : Bool :=
  c.toNat = 32 || (9 ≤ c.toNat && c.toNat ≤ 13)

/-- Modelled from the spec: C `atoi` (libc, external to the
repository) — skip leading whitespace, an optional sign, then decimal
digits; a string without digits parses to zero. -/
def atoi (s : String) : Int :=
  match s.data.dropWhile isSpaceChar with
  | [] => 0
  | c :: cs =>
      if c = '-' then -(atoiDigits cs 0 : Int)
      else if c = '+' then (atoiDigits cs 0 : Int)
      else (atoiDigits (c :: cs) 0 : Int)

/-- Modelled from the spec: `my::clamp(layer, -10, 10)` (base library,
external to the repository) — clamp an integer to `[-10, 10]`. -/
def clampLayer (x : Int) : Int :=
  if x > 10 then 10 else if x < -10 then -10 else x

/-- The `{ "layer", "*" }` rule of the base rule table of
`GetNameAndType` (`osm2type.cpp` lines 369-378): when the stored layer
is still `0`, parse the value and clamp it; the tag itself is left
unchanged.  The other rules of that table never match the key `layer`
and never write the layer field, so the layer value computed by the
table is that of this one-rule table. -/
def layerRule : Rule Int :=
  { key := "layer", value := "*",
    action := fun s k v => (if s = 0 then clampLayer (atoi v) else s, k, v) }

/-- The stored layer after the base rule table processed the element's
tags, starting from stored layer `s` (`FeatureParams::layer`, zero on
a fresh record). -/
def processLayersFrom (s : Int) (tags : List Tag) : Int :=
  (ApplyRules [layerRule] tags s).1

/-- One tag leaves a non-zero stored layer unchanged. -/
lemma applyRulesToTag_layer_ne (s : Int) (k v : String) (hs : s ≠ 0) :
    applyRulesToTag [layerRule] s k v
      = (s, k, v, (applyRulesToTag [layerRule] s k v).2.2.2) := by
  by_cases hf : ruleFires "layer" "*" k v
  · simp [applyRulesToTag, layerRule, hf, hs]
  · simp [applyRulesToTag, layerRule, hf]

/-- A non-zero stored layer survives the whole pass. -/
lemma processLayersFrom_ne (tags : List Tag) (s : Int) (hs : s ≠ 0) :
    processLayersFrom s tags = s := by
  induction tags with
  | nil => rfl
  | cons e rest ih =>
      show (ApplyRules [layerRule] (e :: rest) s).1 = s
      have h := applyRulesToTag_layer_ne s e.1 e.2 hs
      simp only [ApplyRules]
      rw [h]
      exact ih

/-- `clampLayer` lands in the clamp range. -/
lemma clampLayer_bounds (x : Int) : -10 ≤ clampLayer x ∧ clampLayer x ≤ 10 := by
  unfold clampLayer
  by_cases h1 : x > 10
  · simp [h1]
  · simp [h1]
    by_cases h2 : x < -10
    · simp [h2]
    · simp [h2]
      omega

/-- C7 amended: a `layer` tag sets the stored layer only while the
stored value is still zero (so a later `layer` tag can still set it if
an earlier one parsed/clamped to zero); once the stored layer is
non-zero every subsequent `layer` tag is ignored; the parsed value is
clamped to `[-10, 10]`, with `layer=15` storing `10` and `layer=-99`
storing `-10`. -/
theorem layer_resolution :
    (∀ (s : Int) (tags : List Tag), s ≠ 0 → processLayersFrom s tags = s) ∧
    (∀ v : String, -10 ≤ clampLayer (atoi v) ∧ clampLayer (atoi v) ≤ 10) ∧
    processLayersFrom 0 [("layer", "15")] = 10 ∧
    processLayersFrom 0 [("layer", "-99")] = -10 := by
  exact ⟨fun s tags hs => processLayersFrom_ne tags s hs,
         fun v => clampLayer_bounds (atoi v), by decide, by decide⟩

/-- C7 witness: a stored layer `3` is left unchanged by a later
`layer=7` tag. -/
theorem layer_resolution_witness :
    processLayersFrom 3 [("layer", "7")] = 3 :=
  layer_resolution.1 3 [("layer", "7")] (by decide)

/-- C7 counterexample: on the element `[layer=0, layer=5]` the stored
layer ends up `5`, set by the SECOND `layer` tag (processing only the
first leaves it `0`), refuting "only the first `layer` tag encountered
sets the stored layer value". -/
theorem layer_zero_then_set_cex :
    processLayersFrom 0 [("layer", "0"), ("layer", "5")] = 5 ∧
    processLayersFrom 0 [("layer", "0")] = 0 := by
  exact ⟨by decide, by decide⟩

/-- The slice of the Output Record (`FeatureParams`) touched by the
address post-fix step: the assigned type codes, the name table, the
house field (house name or number, as a display string), the reference
string and the layer. -/
structure OutRecord where
  types : List Nat
  names : List (String × String)
  house : String
  ref : String
  layer : Int
deriving DecidableEq

/-- Modelled from the spec: `FeatureParams::PopExactType` (indexer
library, external to `src/`) removes the exact type code from the
record and reports whether it was present. -/
def popExactType (types : List Nat) (t : Nat) : Bool × List Nat :=
  if types.contains t then (true, types.filter (fun x => x ≠ t)) else (false, types)

/-- The address post-fix of `GetNameAndType` (`osm2type.cpp` lines
386-397): when the record has a house name or number and carries the
`entrance` type, that type is removed, the name table cleared and the
`address` type added (`FeatureParams::AddType` appends); otherwise
nothing changes. -/
def addressPostFix (cEnt cAddr : Nat) (p : OutRecord) : OutRecord :=
  if p.house = "" then p
  else
    let q := popExactType p.types cEnt
    if q.1 then { p with types := q.2 ++ [cAddr], names := [] } else p

/-- C8: for a record with a recorded house name or number, if the
`entrance` type is present it is removed, the name table cleared and
the `address` type added; if `entrance` is absent the record is left
completely unchanged (types, names and all other fields). -/
theorem address_postfix_spec (cEnt cAddr : Nat) (p : OutRecord) :
    (p.house ≠ "" → cEnt ∈ p.types →
      addressPostFix cEnt cAddr p
        = { p with types := p.types.filter (fun x => x ≠ cEnt) ++ [cAddr],
                   names := [] }) ∧
    (cEnt ∉ p.types → addressPostFix cEnt cAddr p = p) := by
  constructor
  · intro hh hc
    simp [addressPostFix, popExactType, hh, hc]
  · intro hc
    by_cases hh : p.house = ""
    · simp [addressPostFix, hh]
    · simp [addressPostFix, popExactType, hh, hc]

/-- A concrete record for the C8 witness: house number recorded, types
`[9, 100]` with `9` playing the entrance code. -/
def houseRecord : OutRecord :=
  { types := [9, 100], names := [("default", "x")], house := "12A",
    ref := "r", layer := 2 }

/-- C8 witness: the post-fix applied to `houseRecord` with entrance
code `9` and address code `77` — entrance removed, names cleared,
address appended, other fields untouched. -/
theorem address_postfix_spec_witness :
    addressPostFix 9 77 houseRecord
      = { houseRecord with
            types := houseRecord.types.filter (fun x => x ≠ 9) ++ [77],
            names := [] } :=
  (address_postfix_spec 9 77 houseRecord).1 (by decide) (by decide)

/-- A 2D point of the assessment tool, with integer coordinates for
the embedding (`m2::PointD`). -/
abbrev PointD := Int × Int

/-- The click type of the points-controller delegate. -/
inductive ClickType where
  | Remove
  | Add
  | Miss
deriving DecidableEq

/-- The loop body of `CheckClick` (`part_000` lines 203-207) AS
WRITTEN: `if (PointsMatch(clickPoint, p));` ends in a stray statement
terminator, so the subsequent `return ClickType::Add;` executes
unconditionally on the first iteration; the match result is computed
and discarded.  `pointsMatch` abstracts `PointsMatch` (tolerance
distance on external Mercator geometry). -/
def checkClickLoop (pointsMatch : PointD → PointD → Bool) (click : PointD) :
    List PointD → ClickType
  | [] => ClickType.Miss
  | p :: _ =>
      let _discarded := pointsMatch click p
      ClickType.Add

/-- `PointsControllerDelegate::CheckClick` (`part_000` lines 195-209):
a click on the last clicked point is a `Remove`; otherwise the
reachable-points loop runs (with the stray-semicolon defect), and an
empty list falls through to `Miss`. -/
def CheckClick (pointsMatch : PointD → PointD → Bool)
    (clickPoint lastClickedPoint : PointD)
    (reachablePoints : List PointD) : ClickType :=
  if clickPoint = lastClickedPoint then ClickType.Remove
  else checkClickLoop pointsMatch clickPoint reachablePoints

/-- C9: the code as written returns `Add` for ANY non-empty
reachable-points list — here the matcher rejects every pair (no point
is within tolerance), the click differs from the last clicked point,
and the claim requires `Miss`, yet `CheckClick` returns `Add`: the
stray `;` after `if (PointsMatch(clickPoint, p))` makes the `return
ClickType::Add` unconditional, contradicting the intent the spec
records for this check. -/
theorem check_click_nonempty_always_add :
    CheckClick (fun _ _ => false) (0, 0) (1, 1) [(5, 5)] = ClickType.Add ∧
    ClickType.Add ≠ ClickType.Miss := by
  exact ⟨rfl, by decide⟩

/-- Modelled from the spec: the Type Encoder's per-level field — level
`i` (0-based, shallowest first) occupies 6 bits at shift `26 - 6*i` of
a 32-bit code, holding `index + 1` (`0` means the level is unset). -/
def getLevel (t i : Nat) : Nat := (t >>> (26 - 6 * i)) % 64

/-- Modelled from the spec: the first unset level of a code (at most 5
levels). -/
def firstFreeLevel (t : Nat) : Option Nat :=
  if getLevel t 0 = 0 then some 0
  else if getLevel t 1 = 0 then some 1
  else if getLevel t 2 = 0 then some 2
  else if getLevel t 3 = 0 then some 3
  else if getLevel t 4 = 0 then some 4
  else none

/-- Modelled from the spec: `ftype::PushValue` — write `index + 1`
into the first unset level of the code (external indexer library, not
under `src/`). -/
def PushValue (t idx : Nat) : Nat :=
  match firstFreeLevel t with
  | some i => t + ((idx + 1) % 64) <<< (26 - 6 * i)
  | none => t

/-- Modelled from the spec: `ftype::TruncValue` — mask out every level
beyond the first `n`, yielding the code of the prefix path. -/
def TruncValue (t n : Nat) : Nat :=
  if n ≥ 5 then t else (t >>> (32 - 6 * n)) <<< (32 - 6 * n)

/-- Modelled from the spec: `ftype::GetEmptyValue` — the code with all
levels unset. -/
def GetEmptyValue : Nat := 0

/-- The canonical `highway` code of `CachedTypes` (root ordinal chosen
as 5 for the embedding). -/
def cHighway : Nat := PushValue GetEmptyValue 5

/-- The canonical `railway/station` code of `CachedTypes`. -/
def cRwStation : Nat := PushValue (PushValue GetEmptyValue 7) 2

/-- The canonical `railway/station/subway` code of `CachedTypes`. -/
def cRwSubway : Nat := PushValue cRwStation 1

/-- `CachedTypes::IsHighway` (`osm2type.cpp` lines 235-239): truncate
to one level and compare with the `highway` code. -/
def IsHighway (t : Nat) : Bool := TruncValue t 1 == cHighway

/-- `CachedTypes::IsRwStation` (lines 240-243): exact equality with
the `railway/station` code. -/
def IsRwStation (t : Nat) : Bool := t == cRwStation

/-- `CachedTypes::IsRwSubway` (lines 244-248): truncate to three
levels and compare with the `railway/station/subway` code. -/
def IsRwSubway (t : Nat) : Bool := TruncValue t 3 == cRwSubway

/-- One of the three post-match rule rounds of `GetNameAndType`
(lines 399-464). -/
inductive Round where
  | highway
  | subway
  | railway
deriving DecidableEq

/-- The once-only flags of the post-match loop (`highwayDone`,
`subwayDone`, `railwayDone`, lines 399-401). -/
structure PMFlags where
  highwayDone : Bool
  subwayDone : Bool
  railwayDone : Bool

/-- The highway qualifier branch of one post-match loop iteration
(lines 407-426).  In this and the following branches the `ApplyRules`
table application is abstracted as a state transformer on `σ` (the
tables touch only the output record, never the flags or the frozen
code list); the fired rounds are recorded in order as ghost
instrumentation. -/
def pmStepH {σ : Type} (hw : σ → σ)
    (st : PMFlags × σ × List Round) (t : Nat) : PMFlags × σ × List Round :=
  if !st.1.highwayDone && IsHighway t then
    ({ st.1 with highwayDone := true }, hw st.2.1, st.2.2 ++ [Round.highway])
  else st

/-- The subway locale branch of one post-match iteration
(lines 428-453). -/
def pmStepS {σ : Type} (sub : σ → σ)
    (st : PMFlags × σ × List Round) (t : Nat) : PMFlags × σ × List Round :=
  if !st.1.subwayDone && IsRwSubway t then
    ({ st.1 with subwayDone := true }, sub st.2.1, st.2.2 ++ [Round.subway])
  else st

/-- The generic railway-station branch of one post-match iteration
(lines 455-463); note the guard re-tests `subwayDone`, which the
subway branch of the same iteration may just have set. -/
def pmStepR {σ : Type} (rw2 : σ → σ)
    (st : PMFlags × σ × List Round) (t : Nat) : PMFlags × σ × List Round :=
  if !st.1.subwayDone && (!st.1.railwayDone && IsRwStation t) then
    ({ st.1 with railwayDone := true }, rw2 st.2.1, st.2.2 ++ [Round.railway])
  else st

/-- One full iteration: highway branch, then subway branch, then
railway branch, in source order. -/
def pmStep {σ : Type} (hw sub rw2 : σ → σ)
    (st : PMFlags × σ × List Round) (t : Nat) : PMFlags × σ × List Round :=
  pmStepR rw2 (pmStepS sub (pmStepH hw st t) t) t

/-- The post-match loop over the frozen copy `vTypes` of the record's
type codes (lines 404-464). -/
def postMatchLoop {σ : Type} (hw sub rw2 : σ → σ) :
    List Nat → PMFlags × σ × List Round → σ × List Round
  | [], st => (st.2.1, st.2.2)
  | t :: rest, st => postMatchLoop hw sub rw2 rest (pmStep hw sub rw2 st t)

/-- The post-match phase started with all three flags clear. -/
def runPostMatch {σ : Type} (hw sub rw2 : σ → σ) (s : σ)
    (vTypes : List Nat) : σ × List Round :=
  postMatchLoop hw sub rw2 vTypes
    ({ highwayDone := false, subwayDone := false, railwayDone := false }, s, [])

/-- Membership scan over recorded rounds. -/
def containsRound (r : Round) : List Round → Bool
  | [] => false
  | a :: rest => a == r || containsRound r rest

/-- `true` when some `subway` entry is followed (strictly later) by a
`railway` entry. -/
def railAfterSub : List Round → Bool
  | [] => false
  | Round.subway :: rest => containsRound Round.railway rest || railAfterSub rest
  | _ :: rest => railAfterSub rest

/-- `containsRound` over an appended singleton. -/
lemma containsRound_append (r x : Round) :
    ∀ l : List Round, containsRound r (l ++ [x]) = (containsRound r l || x == r) := by
  intro l
  induction l with
  | nil => simp [containsRound]
  | cons a rest ih => simp [containsRound, ih, Bool.or_assoc]

/-- Appending a non-railway round cannot create a subway-then-railway
pattern. -/
lemma railAfterSub_append_not_rail (x : Round) (hx : x ≠ Round.railway) :
    ∀ l : List Round, railAfterSub (l ++ [x]) = railAfterSub l := by
  have hxr : (x == Round.railway) = false := by
    cases x with
    | highway => rfl
    | subway => rfl
    | railway => exact (hx rfl).elim
  intro l
  induction l with
  | nil =>
      cases x with
      | highway => rfl
      | subway => rfl
      | railway => exact (hx rfl).elim
  | cons a rest ih =>
      cases a with
      | highway => simpa [railAfterSub] using ih
      | railway => simpa [railAfterSub] using ih
      | subway =>
          simp only [List.cons_append, railAfterSub, List.append_eq, ih,
            containsRound_append, hxr, Bool.or_false]

/-- Appending a railway round keeps the list free of subway-then-
railway patterns when no subway round was recorded before. -/
lemma railAfterSub_append_rail :
    ∀ l : List Round, Round.subway ∉ l → railAfterSub l = false →
      railAfterSub (l ++ [Round.railway]) = false := by
  intro l
  induction l with
  | nil => intro h1 h2; rfl
  | cons a rest ih =>
      intro h1 h2
      cases a with
      | highway =>
          simp only [List.cons_append, railAfterSub] at h2 ⊢
          exact ih (fun hm => h1 (List.mem_cons_of_mem _ hm)) h2
      | railway =>
          simp only [List.cons_append, railAfterSub] at h2 ⊢
          exact ih (fun hm => h1 (List.mem_cons_of_mem _ hm)) h2
      | subway => exact (h1 (List.mem_cons_self _ _)).elim

/-- The gating invariant carried through the post-match loop: the
fired counts are bounded by the flags, no subway round was recorded
while `subwayDone` is unset, and no railway round follows a subway
round. -/
def pmInv {σ : Type} (st : PMFlags × σ × List Round) : Prop :=
  st.2.2.count Round.highway ≤ (if st.1.highwayDone then 1 else 0) ∧
  st.2.2.count Round.subway ≤ (if st.1.subwayDone then 1 else 0) ∧
  st.2.2.count Round.railway ≤ (if st.1.railwayDone then 1 else 0) ∧
  (st.1.subwayDone = false → Round.subway ∉ st.2.2) ∧
  railAfterSub st.2.2 = false

/-- The highway branch preserves the gating invariant. -/
lemma pmStepH_inv {σ : Type} (hw : σ → σ) (st : PMFlags × σ × List Round)
    (t : Nat) (h : pmInv st) : pmInv (pmStepH hw st t) := by
  obtain ⟨h1, h2, h3, h4, h5⟩ := h
  unfold pmStepH
  by_cases c : (!st.1.highwayDone && IsHighway t) = true
  · have hflag : st.1.highwayDone = false := by
      have c2 := c
      simp only [Bool.and_eq_true, Bool.not_eq_true'] at c2
      exact c2.1
    rw [if_pos c]
    refine ⟨?_, ?_, ?_, ?_, ?_⟩
    · simp only [List.count_append]
      rw [hflag] at h1
      simp at h1
      simp [h1]
    · simpa [List.count_append] using h2
    · simpa [List.count_append] using h3
    · intro hs
      simp only [List.mem_append, List.mem_singleton]
      rintro (hm | hm)
      · exact h4 hs hm
      · exact Round.noConfusion hm
    · rw [railAfterSub_append_not_rail Round.highway (by decide)]
      exact h5
  · rw [if_neg c]
    exact ⟨h1, h2, h3, h4, h5⟩

/-- The subway branch preserves the gating invariant. -/
lemma pmStepS_inv {σ : Type} (sub : σ → σ) (st : PMFlags × σ × List Round)
    (t : Nat) (h : pmInv st) : pmInv (pmStepS sub st t) := by
  obtain ⟨h1, h2, h3, h4, h5⟩ := h
  unfold pmStepS
  by_cases c : (!st.1.subwayDone && IsRwSubway t) = true
  · have hflag : st.1.subwayDone = false := by
      have c2 := c
      simp only [Bool.and_eq_true, Bool.not_eq_true'] at c2
      exact c2.1
    rw [if_pos c]
    refine ⟨?_, ?_, ?_, ?_, ?_⟩
    · simpa [List.count_append] using h1
    · simp only [List.count_append]
      rw [hflag] at h2
      simp at h2
      simp [h2]
    · simpa [List.count_append] using h3
    · intro hs
      simp at hs
    · rw [railAfterSub_append_not_rail Round.subway (by decide)]
      exact h5
  · rw [if_neg c]
    exact ⟨h1, h2, h3, h4, h5⟩

/-- The railway branch preserves the gating invariant. -/
lemma pmStepR_inv {σ : Type} (rw2 : σ → σ) (st : PMFlags × σ × List Round)
    (t : Nat) (h : pmInv st) : pmInv (pmStepR rw2 st t) := by
  obtain ⟨h1, h2, h3, h4, h5⟩ := h
  unfold pmStepR
  by_cases c : (!st.1.subwayDone && (!st.1.railwayDone && IsRwStation t)) = true
  · have c2 := c
    simp only [Bool.and_eq_true, Bool.not_eq_true'] at c2
    have hsub : st.1.subwayDone = false := c2.1
    have hrail : st.1.railwayDone = false := c2.2.1
    rw [if_pos c]
    refine ⟨?_, ?_, ?_, ?_, ?_⟩
    · simpa [List.count_append] using h1
    · simpa [List.count_append] using h2
    · simp only [List.count_append]
      rw [hrail] at h3
      simp at h3
      simp [h3]
    · intro hs
      simp only [List.mem_append, List.mem_singleton]
      rintro (hm | hm)
      · exact h4 hsub hm
      · exact Round.noConfusion hm
    · exact railAfterSub_append_rail st.2.2 (h4 hsub) h5
  · rw [if_neg c]
    exact ⟨h1, h2, h3, h4, h5⟩

/-- One full iteration preserves the gating invariant. -/
lemma pmStep_inv {σ : Type} (hw sub rw2 : σ → σ)
    (st : PMFlags × σ × List Round) (t : Nat) (h : pmInv st) :
    pmInv (pmStep hw sub rw2 st t) :=
  pmStepR_inv rw2 _ t (pmStepS_inv sub _ t (pmStepH_inv hw st t h))

/-- The post-match loop yields at most one fired round per category
and no railway round after a subway round, from any invariant state. -/
lemma postMatchLoop_inv {σ : Type} (hw sub rw2 : σ → σ) :
    ∀ (vTypes : List Nat) (st : PMFlags × σ × List Round), pmInv st →
      (postMatchLoop hw sub rw2 vTypes st).2.count Round.highway ≤ 1 ∧
      (postMatchLoop hw sub rw2 vTypes st).2.count Round.subway ≤ 1 ∧
      (postMatchLoop hw sub rw2 vTypes st).2.count Round.railway ≤ 1 ∧
      railAfterSub (postMatchLoop hw sub rw2 vTypes st).2 = false := by
  intro vTypes
  induction vTypes with
  | nil =>
      intro st h
      obtain ⟨h1, h2, h3, _, h5⟩ := h
      refine ⟨?_, ?_, ?_, h5⟩
      · exact h1.trans (by split <;> omega)
      · exact h2.trans (by split <;> omega)
      · exact h3.trans (by split <;> omega)
  | cons t rest ih =>
      intro st h
      exact ih (pmStep hw sub rw2 st t) (pmStep_inv hw sub rw2 st t h)

/-- C3 amended: for every element and every ordering of its assigned
type codes, each of the three post-match rounds (highway qualifier,
subway locale, generic railway station) fires at most once, and the
generic railway-station round never fires AFTER the subway round has
fired (its guard re-tests `subwayDone`); however the converse ordering
is possible — see the counterexample — so "whenever the subway round
fires the generic round does not fire for the same element" does not
hold for every ordering. -/
theorem post_match_gating {σ : Type} (hw sub rw2 : σ → σ) (s : σ)
    (vTypes : List Nat) :
    (runPostMatch hw sub rw2 s vTypes).2.count Round.highway ≤ 1 ∧
    (runPostMatch hw sub rw2 s vTypes).2.count Round.subway ≤ 1 ∧
    (runPostMatch hw sub rw2 s vTypes).2.count Round.railway ≤ 1 ∧
    railAfterSub (runPostMatch hw sub rw2 s vTypes).2 = false := by
  exact postMatchLoop_inv hw sub rw2 vTypes _
    ⟨by simp, by simp, by simp, by simp, rfl⟩

/-- C3 counterexample: with the codes ordered generic-station first
and subway-station second, BOTH the generic railway-station round and
the subway round fire for the same element — the subway round fires
for the second code after the generic round already fired for the
first, refuting "whenever the subway round fires for any code the
generic railway-station round does not fire for the same element". -/
theorem post_match_subway_and_railway_both_fire_cex :
    (runPostMatch (fun u : Unit => u) (fun u => u) (fun u => u) ()
        [cRwStation, cRwSubway]).2 = [Round.railway, Round.subway] ∧
    Round.subway ∈ (runPostMatch (fun u : Unit => u) (fun u => u) (fun u => u) ()
        [cRwStation, cRwSubway]).2 ∧
    Round.railway ∈ (runPostMatch (fun u : Unit => u) (fun u => u) (fun u => u) ()
        [cRwStation, cRwSubway]).2 := by
  refine ⟨by decide, by decide, by decide⟩

/-- Modelled from the spec: a node of the external Classification Tree
(`ClassifObject`) — a label and a list of children in ordinal order. -/
inductive ClassifObject where
  | mk (label : String) (children : List ClassifObject)

/-- The label of a node. -/
def ClassifObject.label : ClassifObject → String
  | ClassifObject.mk n _ => n

/-- The children of a node. -/
def ClassifObject.children : ClassifObject → List ClassifObject
  | ClassifObject.mk _ c => c

/-- First child matching a label, together with its ordinal index. -/
def findWithIndex (s : String) : List ClassifObject → Nat →
    Option (ClassifObject × Nat)
  | [], _ => none
  | c :: rest, i =>
      if c.label = s then some (c, i) else findWithIndex s rest (i + 1)

/-- Modelled from the spec: `ClassifObject::BinaryFind` — exact-match
lookup of a label among a node's children, yielding the child and its
ordinal index (the `ClassifObjectPtr` of the C++ code). -/
def binaryFind (o : ClassifObject) (s : String) : Option (ClassifObject × Nat) :=
  findWithIndex s o.children 0

/-- The per-scan state of `ForEachTagEx` (`osm2type.cpp` lines 80-99):
the running tag position `id` and the shared skip set `skipTags`. -/
def exToDo {α : Type} (inner : String → String → Option α) :
    (Nat × Finset ℕ) → String → String → (Nat × Finset ℕ) × Option α :=
  fun st k v =>
    if st.1 ∈ st.2 then ((st.1 + 1, st.2), none)
    else if containsName k then ((st.1 + 1, insert st.1 st.2), none)
    else
      match inner k v with
      | some r => ((st.1 + 1, insert st.1 st.2), some r)
      | none => ((st.1 + 1, st.2), none)

/-- `ForEachTagEx` (`osm2type.cpp` lines 80-99): scan the non-ignored
tags with positions starting at `0`, skipping positions in `skipTags`,
auto-skipping (and marking) name-containing keys, and marking the
position of a successful `toDo` before returning its result. -/
def ForEachTagEx {α : Type} (inner : String → String → Option α)
    (tags : List Tag) (skip : Finset ℕ) : (Nat × Finset ℕ) × Option α :=
  ForEachTag (exToDo inner) tags (0, skip)

/-- The `matchTagToClassificator` lambda of `MatchTypes`
(`osm2type.cpp` lines 257-270): find a child of `current` by the tag
KEY; on success, additionally try to descend by the tag VALUE when the
value takes part in matching; returns the one or two path entries
pushed. -/
def matchTagToClassificator (current : ClassifObject) (k v : String) :
    Option (List (ClassifObject × Nat)) :=
  match binaryFind current k with
  | none => none
  | some elem =>
      if NeedMatchValue k v then
        match binaryFind elem.1 v with
        | some elem2 => some [elem, elem2]
        | none => some [elem]
      else some [elem]

/-- The value-only matching lambda of the path-extension loop
(`osm2type.cpp` lines 289-294). -/
def valueMatch (current : ClassifObject) (k v : String) :
    Option (ClassifObject × Nat) :=
  if NeedMatchValue k v then binaryFind current v else none

/-- The type code of a classification path (lines 309-311): push each
entry's ordinal index onto the empty value. -/
def encodePath (path : List (ClassifObject × Nat)) : Nat :=
  path.foldl (fun t e => PushValue t e.2) GetEmptyValue

/-- Dummy path entry for the (provably unreachable) empty-path case of
`path.back()`. -/
def dummyEntry : ClassifObject × Nat := (ClassifObject.mk "" [], 0)

/-- The inner path-extension `do/while` loop of `MatchTypes`
(`osm2type.cpp` lines 282-306), with an explicit iteration budget
(`fuel`, exhaustion yields `none`; sufficiency is proved below):
set `current` to the deepest path node, try a value-only match, fall
back to a key match, and stop when neither succeeds, yielding the
final skip set and the completed path. -/
def extendLoop (tags : List Tag) :
    Nat → Finset ℕ → List (ClassifObject × Nat) →
      Option (Finset ℕ × List (ClassifObject × Nat))
  | 0, _, _ => none
  | fuel + 1, skip, path =>
      let current := (path.getLastD dummyEntry).1
      let rv := ForEachTagEx (valueMatch current) tags skip
      match rv.2 with
      | some pObj => extendLoop tags fuel rv.1.2 (path ++ [pObj])
      | none =>
          let rk := ForEachTagEx (matchTagToClassificator current) tags rv.1.2
          match rk.2 with
          | some es => extendLoop tags fuel rk.1.2 (path ++ es)
          | none => some (rk.1.2, path)

/-- The outer path-discovery `do/while` loop of `MatchTypes`
(`osm2type.cpp` lines 272-317), with an explicit iteration budget:
root match, path extension, encoding, visibility filter (`drawable`
abstracts `feature::IsDrawableAny`), accumulate and repeat.  Besides
the accumulated type codes, the skip set as of the START of every
outer iteration is recorded (ghost trace, for the reset/persistence
analysis). -/
def outerLoop (root : ClassifObject) (drawable : Nat → Bool) (tags : List Tag) :
    Nat → Finset ℕ → List Nat → Option (List Nat × List (Finset ℕ))
  | 0, _, _ => none
  | fuel + 1, skip, acc =>
      let rk := ForEachTagEx (matchTagToClassificator root) tags skip
      match rk.2 with
      | none => some (acc, [skip])
      | some es =>
          match extendLoop tags (tags.length + 1) rk.1.2 es with
          | none => none
          | some sp =>
              let t := encodePath sp.2
              let acc2 := if drawable t then acc ++ [t] else acc
              match outerLoop root drawable tags fuel sp.1 acc2 with
              | none => none
              | some rt => some (rt.1, skip :: rt.2)

/-- `MatchTypes` (`osm2type.cpp` lines 251-318): fresh empty skip set
per call, iteration budget one more than the element's tag count
(proved sufficient below); returns the accumulated drawable type codes
and the trace of start-of-iteration skip sets. -/
def MatchTypes (root : ClassifObject) (drawable : Nat → Bool)
    (tags : List Tag) : Option (List Nat × List (Finset ℕ)) :=
  outerLoop root drawable tags (tags.length + 1) ∅ []

/-- The number of tags visible to a walker scan. -/
def visibleCount (tags : List Tag) : Nat := (visitedTags tags).length

/-- The termination measure: how many visible tag positions are not
yet in the skip set. -/
def skipMeasure (tags : List Tag) (skip : Finset ℕ) : Nat :=
  ((Finset.range (visibleCount tags)) \ skip).card

/-- `visibleCount` over a cons. -/
lemma visibleCount_cons (e : Tag) (rest : List Tag) :
    visibleCount (e :: rest)
      = if IgnoreTag e.1 e.2 then visibleCount rest else visibleCount rest + 1 := by
  by_cases hig : IgnoreTag e.1 e.2
  · simp [visibleCount, visitedTags, List.filter_cons, hig]
  · simp [visibleCount, visitedTags, List.filter_cons, hig]

/-- The three scan properties of `ForEachTagEx` from position `id`:
the skip set only grows, it grows only by positions of the scanned
range, and a successful scan marks at least one fresh position of that
range. -/
lemma forEachTagEx_props {α : Type} (inner : String → String → Option α) :
    ∀ (tags : List Tag) (id : ℕ) (skip : Finset ℕ),
      skip ⊆ (ForEachTag (exToDo inner) tags (id, skip)).1.2 ∧
      (ForEachTag (exToDo inner) tags (id, skip)).1.2
          ⊆ skip ∪ Finset.Ico id (id + visibleCount tags) ∧
      ((ForEachTag (exToDo inner) tags (id, skip)).2.isSome = true →
        ∃ i, i ∈ (ForEachTag (exToDo inner) tags (id, skip)).1.2 ∧ i ∉ skip ∧
          i ∈ Finset.Ico id (id + visibleCount tags)) := by
  intro tags
  induction tags with
  | nil =>
      intro id skip
      refine ⟨fun x hx => hx, ?_, ?_⟩
      · exact fun x hx => Finset.mem_union_left _ hx
      · intro h
        simp [ForEachTag] at h
  | cons e rest ih =>
      intro id skip
      by_cases hig : IgnoreTag e.1 e.2
      · have hvc : visibleCount (e :: rest) = visibleCount rest := by
          simp [visibleCount_cons, hig]
        have hred : ForEachTag (exToDo inner) (e :: rest) (id, skip)
            = ForEachTag (exToDo inner) rest (id, skip) := by
          simp [ForEachTag, hig]
        rw [hred, hvc]
        exact ih id skip
      · have hvc : visibleCount (e :: rest) = visibleCount rest + 1 := by
          simp [visibleCount_cons, hig]
        have hid : id ∈ Finset.Ico id (id + (visibleCount rest + 1)) := by
          simp [Finset.mem_Ico]
        by_cases hmem : id ∈ skip
        · have hred : ForEachTag (exToDo inner) (e :: rest) (id, skip)
              = ForEachTag (exToDo inner) rest (id + 1, skip) := by
            simp [ForEachTag, hig, exToDo, hmem]
          rw [hred, hvc]
          obtain ⟨ihA, ihB, ihC⟩ := ih (id + 1) skip
          refine ⟨ihA, ?_, ?_⟩
          · refine ihB.trans
              (Finset.union_subset_union (Finset.Subset.refl _) ?_)
            exact Finset.Ico_subset_Ico (by omega) (by omega)
          · intro h
            obtain ⟨i, h1, h2, h3⟩ := ihC h
            exact ⟨i, h1, h2, Finset.Ico_subset_Ico (by omega) (by omega) h3⟩
        · by_cases hname : containsName e.1 = true
          · have hred : ForEachTag (exToDo inner) (e :: rest) (id, skip)
                = ForEachTag (exToDo inner) rest (id + 1, insert id skip) := by
              simp [ForEachTag, hig, exToDo, hmem, hname]
            rw [hred, hvc]
            obtain ⟨ihA, ihB, ihC⟩ := ih (id + 1) (insert id skip)
            refine ⟨?_, ?_, ?_⟩
            · exact (Finset.subset_insert id skip).trans ihA
            · refine ihB.trans ?_
              intro x hx
              rcases Finset.mem_union.mp hx with hx1 | hx2
              · rcases Finset.mem_insert.mp hx1 with rfl | hx3
                · exact Finset.mem_union_right _ hid
                · exact Finset.mem_union_left _ hx3
              · exact Finset.mem_union_right _
                  (Finset.Ico_subset_Ico (by omega) (by omega) hx2)
            · intro h
              obtain ⟨i, h1, h2, h3⟩ := ihC h
              have h2b : i ∉ skip := fun hc => h2 (Finset.mem_insert_of_mem hc)
              exact ⟨i, h1, h2b,
                Finset.Ico_subset_Ico (by omega) (by omega) h3⟩
          · cases hres : inner e.1 e.2 with
            | some r =>
                have hred : ForEachTag (exToDo inner) (e :: rest) (id, skip)
                    = ((id + 1, insert id skip), some r) := by
                  simp [ForEachTag, hig, exToDo, hmem, hname, hres]
                rw [hred, hvc]
                refine ⟨Finset.subset_insert id skip, ?_, ?_⟩
                · intro x hx
                  rcases Finset.mem_insert.mp hx with rfl | hx2
                  · exact Finset.mem_union_right _ hid
                  · exact Finset.mem_union_left _ hx2
                · intro _
                  exact ⟨id, Finset.mem_insert_self id skip, hmem, hid⟩
            | none =>
                have hred : ForEachTag (exToDo inner) (e :: rest) (id, skip)
                    = ForEachTag (exToDo inner) rest (id + 1, skip) := by
                  simp [ForEachTag, hig, exToDo, hmem, hname, hres]
                rw [hred, hvc]
                obtain ⟨ihA, ihB, ihC⟩ := ih (id + 1) skip
                refine ⟨ihA, ?_, ?_⟩
                · refine ihB.trans
                    (Finset.union_subset_union (Finset.Subset.refl _) ?_)
                  exact Finset.Ico_subset_Ico (by omega) (by omega)
                · intro h
                  obtain ⟨i, h1, h2, h3⟩ := ihC h
                  exact ⟨i, h1, h2,
                    Finset.Ico_subset_Ico (by omega) (by omega) h3⟩

/-- The measure is antitone in the skip set. -/
lemma skipMeasure_mono (tags : List Tag) {s1 s2 : Finset ℕ} (h : s1 ⊆ s2) :
    skipMeasure tags s2 ≤ skipMeasure tags s1 :=
  Finset.card_le_card (Finset.sdiff_subset_sdiff (Finset.Subset.refl _) h)

/-- The measure is bounded by the element's tag count. -/
lemma skipMeasure_le (tags : List Tag) (s : Finset ℕ) :
    skipMeasure tags s ≤ tags.length := by
  have h1 : (Finset.range (visibleCount tags)) \ s
      ⊆ Finset.range (visibleCount tags) :=
    fun x hx => (Finset.mem_sdiff.mp hx).1
  calc skipMeasure tags s ≤ (Finset.range (visibleCount tags)).card :=
        Finset.card_le_card h1
    _ = visibleCount tags := Finset.card_range _
    _ ≤ tags.length := List.length_filter_le _ _

/-- A successful `ForEachTagEx` scan strictly decreases the measure. -/
lemma forEachTagEx_success_lt {α : Type} (inner : String → String → Option α)
    (tags : List Tag) (skip : Finset ℕ)
    (h : (ForEachTagEx inner tags skip).2.isSome = true) :
    skipMeasure tags (ForEachTagEx inner tags skip).1.2 < skipMeasure tags skip := by
  obtain ⟨hA, hB, hC⟩ := forEachTagEx_props inner tags 0 skip
  obtain ⟨i, h1, h2, h3⟩ := hC h
  have hilt : i < visibleCount tags := by
    have := Finset.mem_Ico.mp h3
    omega
  unfold ForEachTagEx
  unfold skipMeasure
  apply Finset.card_lt_card
  rw [Finset.ssubset_iff_of_subset
    (Finset.sdiff_subset_sdiff (Finset.Subset.refl _) hA)]
  refine ⟨i, ?_, ?_⟩
  · rw [Finset.mem_sdiff]
    exact ⟨Finset.mem_range.mpr hilt, h2⟩
  · intro hc
    exact (Finset.mem_sdiff.mp hc).2 h1

/-- The skip set only grows across one `ForEachTagEx` scan. -/
lemma forEachTagEx_subset {α : Type} (inner : String → String → Option α)
    (tags : List Tag) (skip : Finset ℕ) :
    skip ⊆ (ForEachTagEx inner tags skip).1.2 :=
  (forEachTagEx_props inner tags 0 skip).1

/-- The path-extension loop: the skip set only grows, and the budget
`skipMeasure + 1` suffices (every non-final iteration marks a fresh
position). -/
lemma extendLoop_props (tags : List Tag) :
    ∀ (fuel : Nat) (skip : Finset ℕ) (path : List (ClassifObject × Nat)),
      (∀ sp, extendLoop tags fuel skip path = some sp → skip ⊆ sp.1) ∧
      (skipMeasure tags skip < fuel →
        (extendLoop tags fuel skip path).isSome = true) := by
  intro fuel
  induction fuel with
  | zero =>
      intro skip path
      constructor
      · intro sp h
        simp [extendLoop] at h
      · intro h
        omega
  | succ fuel ih =>
      intro skip path
      have hsub1 := forEachTagEx_subset
        (valueMatch (path.getLastD dummyEntry).1) tags skip
      cases hrv : (ForEachTagEx (valueMatch (path.getLastD dummyEntry).1)
          tags skip).2 with
      | some pObj =>
          have hlt := forEachTagEx_success_lt
            (valueMatch (path.getLastD dummyEntry).1) tags skip
            (by rw [hrv]; rfl)
          have hred : extendLoop tags (fuel + 1) skip path
              = extendLoop tags fuel
                  (ForEachTagEx (valueMatch (path.getLastD dummyEntry).1)
                    tags skip).1.2 (path ++ [pObj]) := by
            rw [extendLoop]
            rw [hrv]
          rw [hred]
          obtain ⟨ihA, ihB⟩ := ih _ (path ++ [pObj])
          constructor
          · intro sp h
            exact hsub1.trans (ihA sp h)
          · intro h
            exact ihB (by omega)
      | none =>
          have hsub2 := forEachTagEx_subset
            (matchTagToClassificator (path.getLastD dummyEntry).1) tags
            (ForEachTagEx (valueMatch (path.getLastD dummyEntry).1)
              tags skip).1.2
          cases hrk : (ForEachTagEx
              (matchTagToClassificator (path.getLastD dummyEntry).1) tags
              (ForEachTagEx (valueMatch (path.getLastD dummyEntry).1)
                tags skip).1.2).2 with
          | some es =>
              have hlt := forEachTagEx_success_lt
                (matchTagToClassificator (path.getLastD dummyEntry).1) tags
                (ForEachTagEx (valueMatch (path.getLastD dummyEntry).1)
                  tags skip).1.2 (by rw [hrk]; rfl)
              have hle := skipMeasure_mono tags hsub1
              have hred : extendLoop tags (fuel + 1) skip path
                  = extendLoop tags fuel
                      (ForEachTagEx
                        (matchTagToClassificator (path.getLastD dummyEntry).1)
                        tags
                        (ForEachTagEx
                          (valueMatch (path.getLastD dummyEntry).1)
                          tags skip).1.2).1.2 (path ++ es) := by
                rw [extendLoop]
                simp only [hrv]
                simp only [hrk]
              rw [hred]
              obtain ⟨ihA, ihB⟩ := ih _ (path ++ es)
              constructor
              · intro sp h
                exact (hsub1.trans hsub2).trans (ihA sp h)
              · intro h
                exact ihB (by omega)
          | none =>
              have hred : extendLoop tags (fuel + 1) skip path
                  = some ((ForEachTagEx
                      (matchTagToClassificator (path.getLastD dummyEntry).1)
                      tags
                      (ForEachTagEx (valueMatch (path.getLastD dummyEntry).1)
                        tags skip).1.2).1.2, path) := by
                rw [extendLoop]
                simp only [hrv]
                simp only [hrk]
              rw [hred]
              constructor
              · intro sp h
                have hsp : sp = ((ForEachTagEx
                    (matchTagToClassificator (path.getLastD dummyEntry).1)
                    tags
                    (ForEachTagEx (valueMatch (path.getLastD dummyEntry).1)
                      tags skip).1.2).1.2, path) := by
                  exact (Option.some_inj.mp h).symm
                rw [hsp]
                exact hsub1.trans hsub2
              · intro _
                rfl

/-- The outer discovery loop: the budget `skipMeasure + 1` suffices
(every non-final iteration's root match marks a fresh position), and
on completion the recorded trace of start-of-iteration skip sets
begins with the entry skip set and forms an increasing chain. -/
lemma outerLoop_props (root : ClassifObject) (drawable : Nat → Bool)
    (tags : List Tag) :
    ∀ (fuel : Nat) (skip : Finset ℕ) (acc : List Nat),
      (skipMeasure tags skip < fuel →
        (outerLoop root drawable tags fuel skip acc).isSome = true) ∧
      (∀ rt, outerLoop root drawable tags fuel skip acc = some rt →
        rt.2.head? = some skip ∧
        List.Chain' (fun a b : Finset ℕ => a ⊆ b) rt.2) := by
  intro fuel
  induction fuel with
  | zero =>
      intro skip acc
      constructor
      · intro h
        omega
      · intro rt h
        simp [outerLoop] at h
  | succ fuel ih =>
      intro skip acc
      have hsub1 := forEachTagEx_subset (matchTagToClassificator root) tags skip
      cases hrk : (ForEachTagEx (matchTagToClassificator root) tags skip).2 with
      | none =>
          have hred : outerLoop root drawable tags (fuel + 1) skip acc
              = some (acc, [skip]) := by
            rw [outerLoop]
            simp only [hrk]
          rw [hred]
          constructor
          · intro _
            rfl
          · intro rt h
            have hrt : rt = (acc, [skip]) := (Option.some_inj.mp h).symm
            rw [hrt]
            exact ⟨rfl, List.chain'_singleton skip⟩
      | some es =>
          have hlt1 := forEachTagEx_success_lt (matchTagToClassificator root)
            tags skip (by rw [hrk]; rfl)
          have hextsome := (extendLoop_props tags (tags.length + 1)
            (ForEachTagEx (matchTagToClassificator root) tags skip).1.2 es).2
            (by
              have := skipMeasure_le tags
                (ForEachTagEx (matchTagToClassificator root) tags skip).1.2
              omega)
          obtain ⟨sp, hsp⟩ := Option.isSome_iff_exists.mp hextsome
          have hsub2 := (extendLoop_props tags (tags.length + 1)
            (ForEachTagEx (matchTagToClassificator root) tags skip).1.2 es).1
            sp hsp
          have hle2 : skipMeasure tags sp.1 ≤ skipMeasure tags
              (ForEachTagEx (matchTagToClassificator root) tags skip).1.2 :=
            skipMeasure_mono tags hsub2
          have hred : outerLoop root drawable tags (fuel + 1) skip acc
              = match outerLoop root drawable tags fuel sp.1
                  (if drawable (encodePath sp.2) then acc ++ [encodePath sp.2]
                   else acc) with
                | none => none
                | some rt => some (rt.1, skip :: rt.2) := by
            rw [outerLoop]
            simp only [hrk]
            simp only [hsp]
          constructor
          · intro h
            have hrec := (ih sp.1
              (if drawable (encodePath sp.2) then acc ++ [encodePath sp.2]
               else acc)).1 (by omega)
            obtain ⟨rt2, hrt2⟩ := Option.isSome_iff_exists.mp hrec
            rw [hred, hrt2]
            rfl
          · intro rt h
            rw [hred] at h
            cases hrec : outerLoop root drawable tags fuel sp.1
                (if drawable (encodePath sp.2) then acc ++ [encodePath sp.2]
                 else acc) with
            | none =>
                rw [hrec] at h
                simp at h
            | some rt2 =>
                rw [hrec] at h
                have hrt : rt = (rt2.1, skip :: rt2.2) :=
                  (Option.some_inj.mp h).symm
                obtain ⟨hhead, hchain⟩ := (ih sp.1 _).2 rt2 hrec
                rw [hrt]
                refine ⟨rfl, ?_⟩
                rw [List.chain'_cons']
                constructor
                · intro b hb
                  rw [hhead] at hb
                  have hb2 : b = sp.1 := by
                    have := hb
                    simp at this
                    exact this.symm
                  rw [hb2]
                  exact (hsub1.trans hsub2)
                · exact hchain

/-- C10: `MatchTypes` terminates within the stated budget — with one
more outer iteration than the element has tags, the loop always
reaches its break (the result is `some`); moreover the skip set never
shrinks across any `ForEachTagEx` scan, and every successful scan
marks at least one previously unmarked tag position, whose index is
bounded by the element's tag count. -/
theorem match_types_terminates :
    (∀ (root : ClassifObject) (drawable : Nat → Bool) (tags : List Tag),
      (MatchTypes root drawable tags).isSome = true) ∧
    (∀ {α : Type} (inner : String → String → Option α) (tags : List Tag)
        (skip : Finset ℕ),
      skip ⊆ (ForEachTagEx inner tags skip).1.2) ∧
    (∀ {α : Type} (inner : String → String → Option α) (tags : List Tag)
        (skip : Finset ℕ),
      (ForEachTagEx inner tags skip).2.isSome = true →
      ∃ i, i ∈ (ForEachTagEx inner tags skip).1.2 ∧ i ∉ skip ∧
        i < tags.length) := by
  refine ⟨?_, ?_, ?_⟩
  · intro root drawable tags
    exact (outerLoop_props root drawable tags (tags.length + 1) ∅ []).1
      (by
        have := skipMeasure_le tags ∅
        omega)
  · intro α inner tags skip
    exact forEachTagEx_subset inner tags skip
  · intro α inner tags skip h
    obtain ⟨i, h1, h2, h3⟩ := (forEachTagEx_props inner tags 0 skip).2.2 h
    have hico := Finset.mem_Ico.mp h3
    have hlen : visibleCount tags ≤ tags.length := List.length_filter_le _ _
    exact ⟨i, h1, h2, by omega⟩

/-- A leaf of the concrete classification tree used in the walker
scenarios. -/
def primaryNode : ClassifObject := ClassifObject.mk "primary" []

/-- An inner node of the concrete classification tree. -/
def highwayNode : ClassifObject := ClassifObject.mk "highway" [primaryNode]

/-- The root of the concrete classification tree: one root child
`highway` with one child `primary`. -/
def rootC1 : ClassifObject := ClassifObject.mk "" [highwayNode]

/-- C1 counterexample: on the element `[highway=primary]` against the
tree with root child `highway/primary` (everything drawable), the
recorded start-of-iteration skip sets are `[∅, {0}]`: the SECOND outer
iteration starts with tag position `0` still marked skipped from the
first iteration's walk, refuting "the locally-skipped tag-index set is
reset at the start of every iteration of the outer path-discovery
loop" and "tags marked locally skipped during one walk are visible
again to every subsequent outer-loop iteration" (were the set reset,
the same tag would seed the same path forever and the loop could never
break). -/
theorem match_types_skip_persists_cex :
    MatchTypes rootC1 (fun _ => true) [("highway", "primary")]
      = some ([68157440], [∅, {0}]) ∧
    ({0} : Finset ℕ) ≠ (∅ : Finset ℕ) := by
  refine ⟨by decide, by decide⟩

/-- C1 amended: the skip set is created EMPTY ONCE PER `MatchTypes`
CALL and persists, accumulating, across the outer-loop iterations of
that call: the trace of start-of-iteration skip sets begins with `∅`
and is an increasing chain (each iteration starts with the previous
iteration's accumulated set), so a tag marked skipped during one
root-to-leaf walk stays skipped for every later outer iteration of the
same call; the set does not survive into other element calls. -/
theorem match_types_skip_accumulates (root : ClassifObject)
    (drawable : Nat → Bool) (tags : List Tag)
    (rt : List Nat × List (Finset ℕ))
    (h : MatchTypes root drawable tags = some rt) :
    rt.2.head? = some ∅ ∧
    List.Chain' (fun a b : Finset ℕ => a ⊆ b) rt.2 :=
  (outerLoop_props root drawable tags (tags.length + 1) ∅ []).2 rt h

/-- C1 witness: the amended theorem applied to the concrete walker
scenario — its trace `[∅, {0}]` starts empty and is increasing. -/
theorem match_types_skip_accumulates_witness :
    (([∅, {0}] : List (Finset ℕ)).head? = some ∅) ∧
    List.Chain' (fun a b : Finset ℕ => a ⊆ b) ([∅, {0}] : List (Finset ℕ)) :=
  match_types_skip_accumulates rootC1 (fun _ => true) [("highway", "primary")]
    ([68157440], [∅, {0}]) (by decide)

/-- C10 witness: the termination and growth facts applied to the
concrete walker scenario — the call completes, the skip set grows
across the (successful) root-match scan, which marks a fresh position
below the tag count. -/
theorem match_types_terminates_witness :
    (MatchTypes rootC1 (fun _ => true) [("highway", "primary")]).isSome = true ∧
    (∅ : Finset ℕ) ⊆ (ForEachTagEx (matchTagToClassificator rootC1)
        [("highway", "primary")] ∅).1.2 ∧
    (∃ i, i ∈ (ForEachTagEx (matchTagToClassificator rootC1)
        [("highway", "primary")] ∅).1.2 ∧ i ∉ (∅ : Finset ℕ) ∧
        i < [(("highway", "primary") : Tag)].length) := by
  refine ⟨match_types_terminates.1 rootC1 (fun _ => true) [("highway", "primary")],
          match_types_terminates.2.1 (matchTagToClassificator rootC1)
            [("highway", "primary")] ∅,
          match_types_terminates.2.2 (matchTagToClassificator rootC1)
            [("highway", "primary")] ∅ (by decide)⟩
